import Mathlib

/-!
Verification development for the `ctx_i18n` library: a context-aware
internationalisation core consisting of a catalog loader with caching and a
locale-level fallback, a concurrency-isolated locale context, and a
dotted-key translator with named-parameter templating.

The repository ships only the tests (`tests/test_i18n.py`) and the example
web-framework wiring (`examples/main_flask.py`, `examples/main_fastapi.py`);
the `ctx_i18n` module itself is not among the provided sources, so the three
public operations — `load_translations`, `set_locale`, `translate` (`_`) —
are modelled here from the specification, faithful to its words, and the
claims are settled against that model.
-/

set_option autoImplicit false

namespace CtxI18n

/-- Modelled from the spec (§3 Data Model): a Catalog is "an immutable tree
of string leaves keyed by string segments ... a nested mapping from string
to (string | nested mapping)".  The `ctx_i18n` module holding the concrete
parser is missing from the sources; the parsed document is modelled
directly as this tree. -/
inductive Node where
  | leaf (s : String)
  | node (entries : List (String × Node))

/-- First-match association lookup inside one level of a catalog tree. -/
def lookupNode : List (String × Node) → String → Option Node
  | [], _ => none
  | (k, v) :: rest, key => if k = key then some v else lookupNode rest key

/-- First-match lookup of a named parameter in the parameter map
(modelled as an association list of string keys to string values). -/
def lookupParam : List (String × String) → String → Option String
  | [], _ => none
  | (k, v) :: rest, key => if k = key then some v else lookupParam rest key

/-- First-match lookup of a locale's catalog in the catalog cache. -/
def lookupCat : List (String × Node) → String → Option Node
  | [], _ => none
  | (k, v) :: rest, key => if k = key then some v else lookupCat rest key

/-- The dot character that separates the segments of a translation key. -/
def dotChar : Char := Char.ofNat 46

/-- The opening brace of a named placeholder. -/
def obrace : Char := Char.ofNat 123

/-- The closing brace of a named placeholder. -/
def cbrace : Char := Char.ofNat 125

/-- Modelled from the spec (§4.3): "Splits `key` on `.` into segments".
`acc` holds the characters of the current segment, reversed. -/
def splitDotAux : List Char → List Char → List String
  | [], acc => [String.mk acc.reverse]
  | c :: cs, acc =>
    if c = dotChar then String.mk acc.reverse :: splitDotAux cs []
    else splitDotAux cs (c :: acc)

/-- Split a translation key on `.` into its segments. -/
def splitDot (s : String) : List String := splitDotAux s.data []

/-- Modelled from the spec (§4.3): "descends the Catalog tree segment by
segment. If any segment is absent, or a non-leaf is reached where a leaf is
expected (or vice versa), resolution fails locally".  `none` is the
"not found" outcome of the two-valued resolution state machine. -/
def resolve : Node → List String → Option String
  | Node.leaf s, [] => some s
  | Node.leaf _, _ :: _ => none
  | Node.node _, [] => none
  | Node.node entries, seg :: rest =>
    match lookupNode entries seg with
    | some child => resolve child rest
    | none => none

/-- Modelled from the spec (§4.3, §9): named placeholders of the form
`\x7bname\x7d` are substituted "with the corresponding entry from `params`
by name; a placeholder with no matching parameter is left as-is".  The
second argument is `none` while scanning literal text and `some acc` while
inside a placeholder, with the name characters read so far in `acc`,
reversed.  An unclosed placeholder is also left as literal text. -/
def substAux (ps : List (String × String)) : List Char → Option (List Char) → List Char
  | [], none => []
  | [], some acc => obrace :: acc.reverse
  | c :: cs, none =>
    if c = obrace then substAux ps cs (some [])
    else c :: substAux ps cs none
  | c :: cs, some acc =>
    if c = cbrace then
      match lookupParam ps (String.mk acc.reverse) with
      | some v => v.data ++ substAux ps cs none
      | none => obrace :: (acc.reverse ++ cbrace :: substAux ps cs none)
    else substAux ps cs (some (c :: acc))

/-- Substitute named parameters into a resolved leaf string. -/
def formatStr (ps : List (String × String)) (s : String) : String :=
  String.mk (substAux ps s.data none)

/-- Modelled from the spec (§4.3, §6): the key-resolution and templating
layer of `translate`, given the active locale's catalog.  Resolution
failure "is returned unchanged as the result" — the original key — so the
operation is total by construction. -/
def translateCat (cat : Node) (key : String) (ps : List (String × String)) : String :=
  match resolve cat (splitDot key) with
  | some s => formatStr ps s
  | none => key

/-- Modelled from the spec (§7): `CatalogNotFound` is "the single hard
failure" of the loading path (realised as `FileNotFoundError` in the
Python tests). -/
inductive LoadError where
  | CatalogNotFound
deriving DecidableEq, Repr

/-- The fixed fallback locale of the spec (§3): `"en"`. -/
def fallbackLocale : String := "en"

/-- A resolved `locales/` directory, as a mapping from locale identifier to
the parsed content of that locale's file, when the file exists.  A base
path that contains no `locales/` directory at all is the mapping that is
`none` everywhere. -/
def LocaleDir : Type := String → Option Node

/-- Modelled from the spec (§4.1): the cache-free content of a load — the
requested locale's file if it exists, else the fallback locale's file if
that exists, else the `CatalogNotFound` hard failure. -/
def loadPure (fs : LocaleDir) (locale : String) : Except LoadError Node :=
  match fs locale with
  | some cat => Except.ok cat
  | none =>
    match fs fallbackLocale with
    | some cat => Except.ok cat
    | none => Except.error LoadError.CatalogNotFound

/-- Modelled from the spec (§4.1): `load(locale, basePath) -> Catalog` over
a resolved directory, with the process-wide catalog cache threaded
explicitly and the number of file-system reads reported.  A cached locale
is returned "without re-reading the file system"; a missing locale with an
existing fallback file "loads and caches the fallback Catalog and returns
it as the result for that locale"; the cache is append-only. -/
def loadT (fs : LocaleDir) (cache : List (String × Node)) (locale : String) :
    Except LoadError (Node × List (String × Node) × Nat) :=
  match lookupCat cache locale with
  | some cat => Except.ok (cat, cache, 0)
  | none =>
    match fs locale with
    | some cat => Except.ok (cat, cache ++ [(locale, cat)], 1)
    | none =>
      match fs fallbackLocale with
      | some cat => Except.ok (cat, cache ++ [(locale, cat)], 2)
      | none => Except.error LoadError.CatalogNotFound

/-- The `en` catalog of the test fixtures and the spec scenario (§8). -/
def enCat : Node :=
  Node.node [("greeting", Node.leaf "Hello"),
             ("messages", Node.node [("welcome", Node.leaf "Welcome, {name}!")])]

/-- The `tr` catalog of the test fixtures and the spec scenario (§8). -/
def trCat : Node :=
  Node.node [("greeting", Node.leaf "Merhaba"),
             ("messages", Node.node [("welcome", Node.leaf "Hoşgeldin, {name}!")])]

/-- The test fixture `locales/` directory: files for `en` and `tr` only. -/
def exampleFs : LocaleDir :=
  fun l => if l = "en" then some enCat else if l = "tr" then some trCat else none

/-- A base path with no `locales/` directory at all: no locale has a file. -/
def emptyFs : LocaleDir := fun _ => none

/-- Cache-free translate against a resolved directory: obtain the active
locale's catalog (with the implicit load, whose hard failure propagates,
spec §7) and resolve the key inside it. -/
def translateE (fs : LocaleDir) (loc : String) (key : String)
    (ps : List (String × String)) : Except LoadError String :=
  (loadPure fs loc).map (fun cat => translateCat cat key ps)

/-- Modelled from the spec (§4.2, §5): one action of a unit of work —
`setLocale` (which performs the implicit catalog load, as the tests note
"load_translations is called inside set_locale") or a `translate` call. -/
inductive Act where
  | set (locale : String)
  | trans (key : String) (ps : List (String × String))

/-- Modelled from the spec (§4.2): one unit of work (a request, a spawned
task).  `loc` is its private copy of the Locale Context cell — "each
independently scheduled unit of work has its own copy"; `todo` are its
remaining actions, `out` the translate results it observed, `err` a hard
loading failure that aborted it. -/
structure UTask where
  todo : List Act
  loc : String
  out : List String
  err : Option LoadError

/-- Run the next action of one unit of work.  `setLocale` writes only this
unit's own cell; `translate` reads only this unit's own cell.  A loading
failure aborts the unit (the exception propagates, spec §7).  A finished
unit is left unchanged. -/
def stepTask (fs : LocaleDir) (t : UTask) : UTask :=
  match t.todo with
  | [] => t
  | Act.set l :: rest =>
    match loadPure fs l with
    | Except.ok _ => { t with todo := rest, loc := l }
    | Except.error e => { t with todo := [], err := some e }
  | Act.trans k ps :: rest =>
    match translateE fs t.loc k ps with
    | Except.ok s => { t with todo := rest, out := t.out ++ [s] }
    | Except.error e => { t with todo := [], err := some e }

/-- Iterate `stepTask` a fixed number of times. -/
def runSteps (fs : LocaleDir) : Nat → UTask → UTask
  | 0, t => t
  | n + 1, t => runSteps fs n (stepTask fs t)

/-- Run a unit of work to completion in isolation (each step consumes at
least one pending action, so `todo.length` steps always finish it). -/
def runAll (fs : LocaleDir) (t : UTask) : UTask := runSteps fs t.todo.length t

/-- Run one scheduler step of the unit at position `i`; an out-of-range
index is a no-op tick. -/
def stepAt (fs : LocaleDir) : Nat → List UTask → List UTask
  | _, [] => []
  | 0, t :: rest => stepTask fs t :: rest
  | i + 1, t :: rest => t :: stepAt fs i rest

/-- Modelled from the spec (§5): cooperative interleaved scheduling of
several units of work — a schedule is the sequence of choices of which
unit runs its next action. -/
def runSched (fs : LocaleDir) : List Nat → List UTask → List UTask
  | [], ts => ts
  | i :: s, ts => runSched fs s (stepAt fs i ts)

/-- The sibling unit of the isolation test that sets `tr` and translates. -/
def taskTr : UTask :=
  { todo := [Act.set "tr", Act.trans "greeting" []], loc := fallbackLocale,
    out := [], err := none }

/-- The sibling unit of the isolation test that sets `en` and translates. -/
def taskEn : UTask :=
  { todo := [Act.set "en", Act.trans "greeting" []], loc := fallbackLocale,
    out := [], err := none }

/-- A unit standing for the test's main context: sets `en`, translates. -/
def taskMain : UTask :=
  { todo := [Act.set "en", Act.trans "greeting" []], loc := fallbackLocale,
    out := [], err := none }

/-- The environment of the process, as a mapping from variable name to
value; `APP_PATH` is the deployment-level configuration value of §6. -/
def EnvMap : Type := String → Option String

/-- A file tree: base path to resolved `locales/` directory. -/
def FileTree : Type := String → LocaleDir

/-- Modelled from the spec (§6): the location of `locales/` "is resolved
from an externally supplied base path (itself sourced from a
deployment-level configuration value, e.g. an environment variable) when
not passed explicitly" — the tests use the `APP_PATH` variable. -/
def resolveBase (bp : Option String) (env : EnvMap) : Option String :=
  match bp with
  | some b => some b
  | none => env "APP_PATH"

/-- Load a locale's catalog resolving the base path first; an unresolvable
directory has no files, hence the `CatalogNotFound` hard failure. -/
def loadWithBase (tree : FileTree) (env : EnvMap) (bp : Option String)
    (locale : String) : Except LoadError Node :=
  match resolveBase bp env with
  | some b => loadPure (tree b) locale
  | none => Except.error LoadError.CatalogNotFound

/-- The Locale Context cell of the calling unit of work. -/
structure Ctx where
  locale : String

/-- Modelled from the spec (§4.2, §7) and the tests: `set_locale(locale)`
performs the implicit catalog load (through the resolved base path) and
establishes the active locale for the calling unit. -/
def setLocaleOp (tree : FileTree) (env : EnvMap) (bp : Option String)
    (locale : String) (_st : Ctx) : Except LoadError Ctx :=
  (loadWithBase tree env bp locale).map (fun _ => { locale := locale })

/-- Modelled from the spec (§4.3): `translate` retrieves the active locale
from the Locale Context, obtains that locale's catalog (implicit load
through the resolved base path) and resolves the key inside it. -/
def translateOp (tree : FileTree) (env : EnvMap) (bp : Option String)
    (st : Ctx) (key : String) (ps : List (String × String)) :
    Except LoadError String :=
  (loadWithBase tree env bp st.locale).map (fun cat => translateCat cat key ps)

/-- The sequential scenario of the spec (§8) and the tests: one unit of
work sets `tr`, translates twice, then sets `en` and repeats the calls. -/
def scenarioTask : UTask :=
  { todo := [Act.set "tr", Act.trans "greeting" [],
             Act.trans "messages.welcome" [("name", "Test")],
             Act.set "en", Act.trans "greeting" [],
             Act.trans "messages.welcome" [("name", "Test")]],
    loc := fallbackLocale, out := [], err := none }

/-- A catalog whose leaf holds a placeholder for which no parameter will be
supplied. -/
def placeholderCat : Node := Node.node [("m", Node.leaf "Hi, {user}!")]

/-- A concrete process environment where `APP_PATH` points at `/app`. -/
def envEx : EnvMap := fun k => if k = "APP_PATH" then some "/app" else none

/-- A concrete file tree: `/app` holds the fixture `locales/` directory,
every other base path holds no `locales/` directory. -/
def treeEx : FileTree := fun b => if b = "/app" then exampleFs else emptyFs

theorem stepTask_of_nil (fs : LocaleDir) (t : UTask) (h : t.todo = []) :
    stepTask fs t = t := by
  unfold stepTask
  rw [h]

theorem todo_stepTask_le (fs : LocaleDir) (t : UTask) (a : Act) (rest : List Act)
    (h : t.todo = a :: rest) : (stepTask fs t).todo.length ≤ rest.length := by
  cases a with
  | set l =>
    simp only [stepTask, h]
    split <;> simp
  | trans k ps =>
    simp only [stepTask, h]
    split <;> simp

theorem runSteps_of_nil (fs : LocaleDir) :
    ∀ (n : Nat) (t : UTask), t.todo = [] → runSteps fs n t = t := by
  intro n
  induction n with
  | zero => intro t _; rfl
  | succ n ih =>
    intro t h
    show runSteps fs n (stepTask fs t) = t
    rw [stepTask_of_nil fs t h, ih t h]

theorem runSteps_add (fs : LocaleDir) :
    ∀ (m n : Nat) (t : UTask), runSteps fs (m + n) t = runSteps fs n (runSteps fs m t) := by
  intro m
  induction m with
  | zero => intro n t; rw [Nat.zero_add]; rfl
  | succ m ih =>
    intro n t
    have h1 : m + 1 + n = (m + n) + 1 := by omega
    rw [h1]
    show runSteps fs (m + n) (stepTask fs t) = runSteps fs n (runSteps fs m (stepTask fs t))
    rw [ih n (stepTask fs t)]

theorem runSteps_todo_nil (fs : LocaleDir) :
    ∀ (n : Nat) (t : UTask), t.todo.length ≤ n → (runSteps fs n t).todo = [] := by
  intro n
  induction n with
  | zero =>
    intro t h
    exact List.eq_nil_of_length_eq_zero (Nat.le_zero.mp h)
  | succ n ih =>
    intro t h
    show (runSteps fs n (stepTask fs t)).todo = []
    cases htodo : t.todo with
    | nil => rw [stepTask_of_nil fs t htodo]; exact ih t (by simp [htodo])
    | cons a rest =>
      apply ih
      have h1 := todo_stepTask_le fs t a rest htodo
      have h2 : rest.length ≤ n := by rw [htodo] at h; simpa using h
      omega

theorem runAll_todo (fs : LocaleDir) (t : UTask) : (runAll fs t).todo = [] :=
  runSteps_todo_nil fs t.todo.length t le_rfl

theorem runSteps_absorb (fs : LocaleDir) (n : Nat) (t : UTask)
    (h : t.todo.length ≤ n) : runSteps fs n t = runAll fs t := by
  obtain ⟨d, hd⟩ := Nat.exists_eq_add_of_le h
  rw [hd, runSteps_add fs t.todo.length d t]
  exact runSteps_of_nil fs d (runAll fs t) (runAll_todo fs t)

theorem runAll_step (fs : LocaleDir) (t : UTask) :
    runAll fs (stepTask fs t) = runAll fs t := by
  cases htodo : t.todo with
  | nil => rw [stepTask_of_nil fs t htodo]
  | cons a rest =>
    have h1 : runAll fs t = runSteps fs (rest.length + 1) t := by
      unfold runAll
      rw [htodo]
      rfl
    rw [h1]
    show runAll fs (stepTask fs t) = runSteps fs rest.length (stepTask fs t)
    exact (runSteps_absorb fs rest.length (stepTask fs t)
      (todo_stepTask_le fs t a rest htodo)).symm

theorem map_runAll_stepAt (fs : LocaleDir) :
    ∀ (i : Nat) (ts : List UTask),
      (stepAt fs i ts).map (runAll fs) = ts.map (runAll fs) := by
  intro i ts
  induction ts generalizing i with
  | nil => cases i <;> rfl
  | cons t rest ih =>
    cases i with
    | zero => simp [stepAt, runAll_step fs t]
    | succ j => simp [stepAt, ih j]

theorem runSched_map_runAll (fs : LocaleDir) :
    ∀ (sched : List Nat) (ts : List UTask),
      (runSched fs sched ts).map (runAll fs) = ts.map (runAll fs) := by
  intro sched
  induction sched with
  | nil => intro ts; rfl
  | cons i s ih =>
    intro ts
    show (runSched fs s (stepAt fs i ts)).map (runAll fs) = ts.map (runAll fs)
    rw [ih (stepAt fs i ts), map_runAll_stepAt fs i ts]

theorem substAux_scan (ps : List (String × String)) :
    ∀ (n acc suf : List Char), cbrace ∉ n →
      substAux ps (n ++ cbrace :: suf) (some acc) =
        (match lookupParam ps (String.mk (acc.reverse ++ n)) with
         | some v => v.data ++ substAux ps suf none
         | none => obrace :: (acc.reverse ++ n ++ cbrace :: substAux ps suf none)) := by
  intro n
  induction n with
  | nil =>
    intro acc suf _
    show substAux ps (cbrace :: suf) (some acc) = _
    simp only [substAux, if_pos rfl]
    cases hl : lookupParam ps (String.mk acc.reverse) <;>
      simp [hl]
  | cons c n ih =>
    intro acc suf h
    have hc : c ≠ cbrace := fun he => h (by simp [he])
    have hn : cbrace ∉ n := fun he => h (by simp [he])
    show substAux ps (c :: (n ++ cbrace :: suf)) (some acc) = _
    simp only [substAux, if_neg hc]
    rw [ih (c :: acc) suf hn]
    cases hl : lookupParam ps (String.mk ((c :: acc).reverse ++ n)) <;>
      cases hl2 : lookupParam ps (String.mk (acc.reverse ++ c :: n)) <;>
      simp_all [List.reverse_cons, List.append_assoc]

theorem substAux_literal (ps : List (String × String)) :
    ∀ (pre rest : List Char), obrace ∉ pre →
      substAux ps (pre ++ rest) none = pre ++ substAux ps rest none := by
  intro pre
  induction pre with
  | nil => intro rest _; rfl
  | cons c pre ih =>
    intro rest h
    have hc : c ≠ obrace := fun he => h (by simp [he])
    have hp : obrace ∉ pre := fun he => h (by simp [he])
    show substAux ps (c :: (pre ++ rest)) none = _
    simp only [substAux, if_neg hc]
    rw [ih rest hp]
    rfl

theorem lookupCat_append_self (cache : List (String × Node)) (l : String) (d : Node)
    (h : lookupCat cache l = none) : lookupCat (cache ++ [(l, d)]) l = some d := by
  induction cache with
  | nil => simp [lookupCat]
  | cons p rest ih =>
    obtain ⟨k, v⟩ := p
    by_cases hk : k = l
    · simp [lookupCat, hk] at h
    · simp only [lookupCat, if_neg hk] at h
      simp only [List.cons_append, lookupCat, if_neg hk]
      exact ih h

theorem lookupCat_append_of_some (cache ext : List (String × Node)) (l : String)
    (d : Node) (h : lookupCat cache l = some d) :
    lookupCat (cache ++ ext) l = some d := by
  induction cache with
  | nil => simp [lookupCat] at h
  | cons p rest ih =>
    obtain ⟨k, v⟩ := p
    by_cases hk : k = l
    · simp only [lookupCat, if_pos hk] at h
      simp only [List.cons_append, lookupCat, if_pos hk]
      exact h
    · simp only [lookupCat, if_neg hk] at h
      simp only [List.cons_append, lookupCat, if_neg hk]
      exact ih h

/-- C1: translate is total — `translateCat` is a total function by
construction — and whenever the dotted-key walk fails at any step (absent
segment, non-leaf where a leaf is expected, or vice versa: exactly the
`none` outcomes of `resolve`), the original key string is returned
verbatim and unchanged. -/
theorem translate_total_returns_key_on_miss (cat : Node) (key : String)
    (ps : List (String × String)) (h : resolve cat (splitDot key) = none) :
    translateCat cat key ps = key := by
  simp [translateCat, h]

/-- Witness for C1 at the test's input `"non.existent.key"` against the
`en` catalog. -/
theorem translate_total_returns_key_on_miss_wit :
    resolve enCat (splitDot "non.existent.key") = none ∧
      translateCat enCat "non.existent.key" [] = "non.existent.key" :=
  ⟨by decide, translate_total_returns_key_on_miss enCat "non.existent.key" [] (by decide)⟩

/-- C2: context isolation — completing any interleaving of any units of
work yields, for every unit, exactly the state of running that unit alone:
a `setLocale` inside one unit is never observable from a concurrently
executing sibling and never leaks back to any other unit.  In particular,
for the test's units (one sets `tr`, one sets `en`, plus the main context
that sets `en`), every schedule makes each unit observe only its own
locale. -/
theorem setLocale_context_isolation :
    (∀ (fs : LocaleDir) (sched : List Nat) (ts : List UTask),
        (runSched fs sched ts).map (runAll fs) = ts.map (runAll fs)) ∧
      ∀ sched : List Nat,
        ((runSched exampleFs sched [taskTr, taskEn, taskMain]).map
            (runAll exampleFs)).map UTask.out = [["Merhaba"], ["Hello"], ["Hello"]] := by
  refine ⟨runSched_map_runAll, ?_⟩
  intro sched
  rw [runSched_map_runAll exampleFs sched [taskTr, taskEn, taskMain]]
  decide

/-- C3: the loader fails, and fails with `CatalogNotFound`, exactly when
both the requested locale's file and the fallback locale's file are absent
from the resolved directory (for an uncached locale); the error is the
loader's only hard failure and is returned to the caller, never
swallowed. -/
theorem loadT_error_iff_both_absent (fs : LocaleDir) (cache : List (String × Node))
    (locale : String) (h : lookupCat cache locale = none) :
    loadT fs cache locale = Except.error LoadError.CatalogNotFound ↔
      (fs locale = none ∧ fs fallbackLocale = none) := by
  cases hf : fs locale with
  | some c => simp [loadT, h, hf]
  | none =>
    cases hb : fs fallbackLocale with
    | some c => simp [loadT, h, hf, hb]
    | none => simp [loadT, h, hf, hb]

/-- Witness for C3 at a base path containing no `locales/` directory at
all (`emptyFs`), requesting locale `fr` with an empty cache. -/
theorem loadT_error_iff_both_absent_wit :
    lookupCat ([] : List (String × Node)) "fr" = none ∧
      (loadT emptyFs [] "fr" = Except.error LoadError.CatalogNotFound ↔
        (emptyFs "fr" = none ∧ emptyFs fallbackLocale = none)) :=
  ⟨rfl, loadT_error_iff_both_absent emptyFs [] "fr" rfl⟩

/-- C4: whole-catalog fallback — when the requested locale has no file but
the fallback locale's file exists, loading the locale returns a catalog
content-equal to loading the fallback: the entire fallback catalog `c` is
substituted as the result, not a per-key merge. -/
theorem loadT_whole_catalog_fallback (fs : LocaleDir) (locale : String) (c : Node)
    (h1 : fs locale = none) (h2 : fs fallbackLocale = some c) :
    loadT fs [] locale = Except.ok (c, [(locale, c)], 2) ∧
      loadT fs [] fallbackLocale = Except.ok (c, [(fallbackLocale, c)], 1) := by
  constructor
  · simp [loadT, lookupCat, h1, h2]
  · simp [loadT, lookupCat, h2]

/-- Witness for C4 at the test's input: locale `fr` has no file, the `en`
fallback file exists, and both loads return the `en` catalog. -/
theorem loadT_whole_catalog_fallback_wit :
    exampleFs "fr" = none ∧ exampleFs fallbackLocale = some enCat ∧
      (loadT exampleFs [] "fr" = Except.ok (enCat, [("fr", enCat)], 2) ∧
        loadT exampleFs [] fallbackLocale =
          Except.ok (enCat, [(fallbackLocale, enCat)], 1)) :=
  ⟨rfl, rfl, loadT_whole_catalog_fallback exampleFs "fr" enCat rfl rfl⟩

/-- C5: within one unit of work, `setLocale` followed by `translate`
observes the just-set locale (the translate output is computed from the
catalog `c` of the locale `l` that was just set, with named placeholders
substituted from the parameter map by name), and the spec's concrete
scenario holds: setting `tr` yields `"Merhaba"` and `"Hoşgeldin, Test!"`,
then setting `en` yields `"Hello"` and `"Welcome, Test!"`. -/
theorem setLocale_translate_ordering (fs : LocaleDir) (t : UTask) (l k : String)
    (ps : List (String × String)) (rest : List Act) (c : Node)
    (h1 : t.todo = Act.set l :: Act.trans k ps :: rest)
    (h2 : loadPure fs l = Except.ok c) :
    (stepTask fs t).loc = l ∧
      (stepTask fs (stepTask fs t)).out = t.out ++ [translateCat c k ps] ∧
      (runAll exampleFs scenarioTask).out =
        ["Merhaba", "Hoşgeldin, Test!", "Hello", "Welcome, Test!"] := by
  have hstep : stepTask fs t = { t with todo := Act.trans k ps :: rest, loc := l } := by
    simp [stepTask, h1, h2]
  refine ⟨by rw [hstep], ?_, by decide⟩
  rw [hstep]
  simp [stepTask, translateE, h2, Except.map]

/-- Witness for C5: the `tr`-setting unit of the tests observes `tr` and
gets the translation from the `tr` catalog. -/
theorem setLocale_translate_ordering_wit :
    taskTr.todo = Act.set "tr" :: Act.trans "greeting" [] :: [] ∧
      loadPure exampleFs "tr" = Except.ok trCat ∧
      ((stepTask exampleFs taskTr).loc = "tr" ∧
        (stepTask exampleFs (stepTask exampleFs taskTr)).out =
          taskTr.out ++ [translateCat trCat "greeting" []] ∧
        (runAll exampleFs scenarioTask).out =
          ["Merhaba", "Hoşgeldin, Test!", "Hello", "Welcome, Test!"]) :=
  ⟨rfl, rfl, setLocale_translate_ordering exampleFs taskTr "tr" "greeting" [] [] trCat rfl rfl⟩

/-- C6: a placeholder whose name has no entry in the parameter map is left
as-is in the returned string — no exception, no empty-string substitution:
the resolved leaf's text around it passes through and the placeholder
itself reappears verbatim between its braces. -/
theorem translate_unmatched_placeholder_literal (cat : Node) (key : String)
    (ps : List (String × String)) (s : String) (pre n suf : List Char)
    (hres : resolve cat (splitDot key) = some s)
    (hdata : s.data = pre ++ obrace :: (n ++ cbrace :: suf))
    (hpre : obrace ∉ pre) (hn : cbrace ∉ n)
    (hmiss : lookupParam ps (String.mk n) = none) :
    translateCat cat key ps =
      String.mk (pre ++ obrace :: (n ++ cbrace :: substAux ps suf none)) := by
  simp only [translateCat, hres, formatStr, hdata]
  rw [substAux_literal ps pre (obrace :: (n ++ cbrace :: suf)) hpre]
  show String.mk (pre ++ substAux ps (obrace :: (n ++ cbrace :: suf)) none) = _
  simp only [substAux, if_pos rfl]
  rw [substAux_scan ps n [] suf hn]
  simp [hmiss]

/-- Witness for C6: the leaf `"Hi, \x7buser\x7d!"` with an empty parameter
map keeps its placeholder literally. -/
theorem translate_unmatched_placeholder_literal_wit :
    resolve placeholderCat (splitDot "m") = some "Hi, {user}!" ∧
      ("Hi, {user}!").data = "Hi, ".data ++ obrace :: ("user".data ++ cbrace :: "!".data) ∧
      obrace ∉ "Hi, ".data ∧ cbrace ∉ "user".data ∧
      lookupParam [] (String.mk "user".data) = none ∧
      translateCat placeholderCat "m" [] =
        String.mk ("Hi, ".data ++ obrace :: ("user".data ++ cbrace :: substAux [] "!".data none)) :=
  ⟨by decide, by decide, by decide, by decide, rfl,
    translate_unmatched_placeholder_literal placeholderCat "m" [] "Hi, {user}!"
      "Hi, ".data "user".data "!".data (by decide) (by decide) (by decide) (by decide) rfl⟩

/-- C7: the loader is idempotent — after any successful load, loading the
same locale again against the resulting cache returns the same catalog and
the same cache while performing zero file-system reads (the cache hit is
side-effect-free). -/
theorem loadT_idempotent_cache_hit (fs : LocaleDir) (cache : List (String × Node))
    (locale : String) (c : Node) (cache' : List (String × Node)) (n : Nat)
    (h : loadT fs cache locale = Except.ok (c, cache', n)) :
    loadT fs cache' locale = Except.ok (c, cache', 0) := by
  cases h0 : lookupCat cache locale with
  | some d =>
    simp only [loadT, h0, Except.ok.injEq, Prod.mk.injEq] at h
    obtain ⟨hd, hc, _⟩ := h
    subst hd
    subst hc
    simp only [loadT, h0]
  | none =>
    cases hf : fs locale with
    | some d =>
      simp only [loadT, h0, hf, Except.ok.injEq, Prod.mk.injEq] at h
      obtain ⟨hd, hc, _⟩ := h
      subst hd
      subst hc
      simp only [loadT, lookupCat_append_self cache locale d h0]
    | none =>
      cases hb : fs fallbackLocale with
      | some d =>
        simp only [loadT, h0, hf, hb, Except.ok.injEq, Prod.mk.injEq] at h
        obtain ⟨hd, hc, _⟩ := h
        subst hd
        subst hc
        simp only [loadT, lookupCat_append_self cache locale d h0]
      | none =>
        simp only [loadT, h0, hf, hb] at h
        exact Except.noConfusion h

/-- Witness for C7: loading `tr` twice — the first call reads the file
once, the second is a read-free cache hit returning the same catalog. -/
theorem loadT_idempotent_cache_hit_wit :
    loadT exampleFs [] "tr" = Except.ok (trCat, [("tr", trCat)], 1) ∧
      loadT exampleFs [("tr", trCat)] "tr" = Except.ok (trCat, [("tr", trCat)], 0) :=
  ⟨rfl, loadT_idempotent_cache_hit exampleFs [] "tr" trCat [("tr", trCat)] 1 rfl⟩

/-- C8: round-trip of loading — for an uncached locale whose file exists,
the loader returns exactly the parsed file content `c` (so looking up any
existing key in the returned catalog yields the literal string stored in
the file), caching it under the locale after a single read. -/
theorem loadT_roundtrip_existing_file (fs : LocaleDir) (cache : List (String × Node))
    (locale : String) (c : Node)
    (h1 : lookupCat cache locale = none) (h2 : fs locale = some c) :
    loadT fs cache locale = Except.ok (c, cache ++ [(locale, c)], 1) := by
  simp [loadT, h1, h2]

/-- Witness for C8: loading `tr` returns the `tr` file's content, under
which `greeting` holds the literal `"Merhaba"`. -/
theorem loadT_roundtrip_existing_file_wit :
    lookupCat ([] : List (String × Node)) "tr" = none ∧
      exampleFs "tr" = some trCat ∧
      loadT exampleFs [] "tr" = Except.ok (trCat, [("tr", trCat)], 1) ∧
      resolve trCat ["greeting"] = some "Merhaba" :=
  ⟨rfl, rfl, loadT_roundtrip_existing_file exampleFs [] "tr" trCat rfl rfl, by decide⟩

/-- C9: the cache invariant is preserved by the only cache-writing
operation — every successful load leaves the cache an append-only
extension of what it was, and every entry already present is still found
with identical content afterwards, so no reader ever observes a rewritten
or half-written catalog. -/
theorem loadT_cache_append_only (fs : LocaleDir) (cache : List (String × Node))
    (locale : String) (c : Node) (cache' : List (String × Node)) (n : Nat)
    (h : loadT fs cache locale = Except.ok (c, cache', n)) :
    (∃ ext, cache' = cache ++ ext) ∧
      ∀ (l : String) (d : Node), lookupCat cache l = some d →
        lookupCat cache' l = some d := by
  cases h0 : lookupCat cache locale with
  | some e =>
    simp only [loadT, h0, Except.ok.injEq, Prod.mk.injEq] at h
    obtain ⟨_, hc, _⟩ := h
    subst hc
    exact ⟨⟨[], by simp⟩, fun l d hd => hd⟩
  | none =>
    cases hf : fs locale with
    | some e =>
      simp only [loadT, h0, hf, Except.ok.injEq, Prod.mk.injEq] at h
      obtain ⟨_, hc, _⟩ := h
      subst hc
      exact ⟨⟨[(locale, e)], rfl⟩,
        fun l d hd => lookupCat_append_of_some cache [(locale, e)] l d hd⟩
    | none =>
      cases hb : fs fallbackLocale with
      | some e =>
        simp only [loadT, h0, hf, hb, Except.ok.injEq, Prod.mk.injEq] at h
        obtain ⟨_, hc, _⟩ := h
        subst hc
        exact ⟨⟨[(locale, e)], rfl⟩,
          fun l d hd => lookupCat_append_of_some cache [(locale, e)] l d hd⟩
      | none =>
        simp only [loadT, h0, hf, hb] at h
        exact Except.noConfusion h

/-- Witness for C9: loading `tr` over a cache holding `en` appends the new
entry and keeps the `en` entry intact. -/
theorem loadT_cache_append_only_wit :
    loadT exampleFs [("en", enCat)] "tr" =
        Except.ok (trCat, [("en", enCat), ("tr", trCat)], 1) ∧
      ((∃ ext, [("en", enCat), ("tr", trCat)] = [("en", enCat)] ++ ext) ∧
        ∀ (l : String) (d : Node), lookupCat [("en", enCat)] l = some d →
          lookupCat [("en", enCat), ("tr", trCat)] l = some d) :=
  ⟨rfl, loadT_cache_append_only exampleFs [("en", enCat)] "tr" trCat
    [("en", enCat), ("tr", trCat)] 1 rfl⟩

/-- C10: when no base path is passed, the `locales/` directory is resolved
from the `APP_PATH` environment variable: with `APP_PATH` pointing at a
directory whose `locales/` holds the fixture files, `set_locale "tr"`
performs the implicit load through that directory and a subsequent
`translate "greeting"` resolves against it to `"Merhaba"`. -/
theorem app_path_env_resolution (tree : FileTree) (env : EnvMap) (base : String)
    (h1 : env "APP_PATH" = some base) (h2 : tree base = exampleFs) :
    setLocaleOp tree env none "tr" { locale := fallbackLocale } =
        Except.ok { locale := "tr" } ∧
      translateOp tree env none { locale := "tr" } "greeting" [] =
        Except.ok "Merhaba" := by
  have hload : loadWithBase tree env none "tr" = Except.ok trCat := by
    unfold loadWithBase resolveBase
    rw [h1]
    show loadPure (tree base) "tr" = Except.ok trCat
    rw [h2]
    rfl
  constructor
  · unfold setLocaleOp
    rw [hload]
    rfl
  · unfold translateOp
    show (loadWithBase tree env none "tr").map _ = _
    rw [hload]
    rfl

/-- Witness for C10: the concrete environment maps `APP_PATH` to `/app`,
where the fixture `locales/` directory lives. -/
theorem app_path_env_resolution_wit :
    envEx "APP_PATH" = some "/app" ∧ treeEx "/app" = exampleFs ∧
      (setLocaleOp treeEx envEx none "tr" { locale := fallbackLocale } =
          Except.ok { locale := "tr" } ∧
        translateOp treeEx envEx none { locale := "tr" } "greeting" [] =
          Except.ok "Merhaba") :=
  ⟨rfl, rfl, app_path_env_resolution treeEx envEx "/app" rfl rfl⟩

end CtxI18n
